import Mathlib

/-
  Verification of the dataverse-utilities request-interception and
  credential-lifecycle subsystem.

  Shallow embedding of:
  - the secure fetch wrapper (createSecureFetch and its helpers validateUrl
    and the inline URL classification) from src/testing/setup.ts;
  - setupDataverse / resetDataverseSetup and their timer behaviour,
    as an explicit state machine;
  - the token cache and getAzureToken / hasCachedToken from
    src/auth/azure-auth.ts;
  - sanitizeErrorMessage from src/auth/azure-auth.ts.

  Strings are embedded as List Char.  JavaScript promise rejection and
  thrown exceptions are made explicit with Except: a value `.error e`
  of the wrapper models a rejected promise reaching the caller, while
  synthetic responses are `.ok r`.
-/

set_option maxRecDepth 8000

abbrev Str := List Char

/-- Convert a Lean string literal to the List Char representation. -/
def ls (s : String) : Str := s.toList

/-- Boolean test that `r` occurs at the start of `l`. -/
def preB : Str → Str → Bool
  | [], _ => true
  | _ :: _, [] => false
  | c :: r, d :: l => c = d && preB r l

/-- Boolean test that `r` occurs somewhere inside `l` (contiguously). -/
def subB : Str → Str → Bool
  | r, [] => r.isEmpty
  | r, c :: l => preB r (c :: l) || subB r l

/-- Proposition: `r` is an initial segment of `l`. -/
def isPre (r l : Str) : Prop := ∃ t, l = r ++ t

/-- Proposition: `r` is a final segment of `l`. -/
def isSuf (r l : Str) : Prop := ∃ s, l = s ++ r

/-- Proposition: `r` occurs contiguously inside `l`. -/
def isSub (r l : Str) : Prop := ∃ s t, l = s ++ r ++ t

theorem preB_iff (r l : Str) : preB r l = true ↔ isPre r l := by
  induction r generalizing l with
  | nil => simp [preB, isPre]
  | cons c r ih =>
    cases l with
    | nil =>
      simp [preB, isPre]
    | cons d t =>
      simp only [preB, Bool.and_eq_true, decide_eq_true_eq, ih, isPre]
      constructor
      · rintro ⟨rfl, u, rfl⟩; exact ⟨u, rfl⟩
      · rintro ⟨u, h⟩
        cases h
        exact ⟨rfl, u, rfl⟩

theorem subB_iff (r l : Str) : subB r l = true ↔ isSub r l := by
  induction l with
  | nil =>
    simp only [subB, List.isEmpty_iff, isSub]
    constructor
    · rintro rfl; exact ⟨[], [], rfl⟩
    · rintro ⟨s, t, h⟩
      obtain ⟨h1, _⟩ := List.append_eq_nil.mp h.symm
      exact (List.append_eq_nil.mp h1).2
  | cons c l ih =>
    simp only [subB, Bool.or_eq_true, preB_iff, ih, isSub, isPre]
    constructor
    · rintro (⟨t, h⟩ | ⟨s, t, h⟩)
      · exact ⟨[], t, by simpa using h⟩
      · exact ⟨c :: s, t, by simp [h]⟩
    · rintro ⟨s, t, h⟩
      cases s with
      | nil => exact Or.inl ⟨t, by simpa using h⟩
      | cons a s =>
        right
        refine ⟨s, t, ?_⟩
        simpa using congrArg (List.drop 1) h

theorem subB_of_preB (r l : Str) (h : preB r l = true) : subB r l = true := by
  rcases (preB_iff r l).mp h with ⟨t, rfl⟩
  exact (subB_iff r (r ++ t)).mpr ⟨[], t, by simp⟩

/-- JavaScript `s.startsWith(pat)`. -/
def jsStartsWith (s pat : Str) : Bool := preB pat s

/-- JavaScript `s.includes(pat)`. -/
def jsIncludes (s pat : Str) : Bool := subB pat s

/-- Lower-case an ASCII letter, identity elsewhere (for the `/i` regex flag). -/
def lowCh (c : Char) : Char :=
  if 'A' ≤ c ∧ c ≤ 'Z' then Char.ofNat (c.toNat + 32) else c

/-- Case-insensitive substring test: models `/pat/i.test(s)` for a literal
pattern `pat` given in lower case. -/
def containsCI (s pat : Str) : Bool := subB pat (s.map lowCh)

def isLetterC (c : Char) : Bool := ('A' ≤ c && c ≤ 'Z') || ('a' ≤ c && c ≤ 'z')

def isDigitC (c : Char) : Bool := '0' ≤ c && c ≤ '9'

/-- Scan the remainder of a candidate scheme: scheme characters followed by a
colon. -/
def schemeRest : Str → Bool
  | [] => false
  | c :: l =>
    if c = ':' then true
    else if isLetterC c || isDigitC c || c = '+' || c = '-' || c = '.' then schemeRest l
    else false

/-- Models success of `new URL(s)` (WHATWG): the input must be absolute,
i.e. begin with a scheme `letter (letter|digit|+|-|.)* :`.  Relative
references such as `api/data/v9.1/accounts` have no scheme and make the
constructor throw. -/
def urlParses : Str → Bool
  | [] => false
  | c :: l => isLetterC c && schemeRest l

/-- Embedding of `validateUrl` (setup.ts): prepend a dummy base for
URLs starting with `/`, require URL-syntax parse, and reject the four
suspicious scheme patterns (tested case-insensitively on the original
input). -/
def validateUrl (url : Str) : Bool :=
  (urlParses (if jsStartsWith url (ls "/") then ls "https://example.com" ++ url else url))
    && !(containsCI url (ls "javascript:") || containsCI url (ls "data:")
         || containsCI url (ls "file:") || containsCI url (ls "ftp:"))

/-- Embedding of the inline URL classification of `createSecureFetch`
(setup.ts lines 105-122): returns the full URL to use and whether auth
headers should be added. -/
def classifyUrl (dataverseUrl url : Str) : Str × Bool :=
  if jsStartsWith url (ls "/api/data") then (dataverseUrl ++ url, true)
  else if jsIncludes url dataverseUrl && jsIncludes url (ls "/api/data") then (url, true)
  else (url, jsIncludes url (ls "/api/data"))

theorem classifyUrl_snd (b url : Str) :
    (classifyUrl b url).snd = jsIncludes url (ls "/api/data") := by
  unfold classifyUrl
  by_cases h1 : jsStartsWith url (ls "/api/data") = true
  · simp only [h1, if_true]
    exact (subB_of_preB _ _ h1).symm
  · simp only [h1, Bool.false_eq_true, if_false]
    by_cases h2 : (jsIncludes url b && jsIncludes url (ls "/api/data")) = true
    · simp only [h2, if_true]
      exact ((Bool.and_eq_true _ _).mp h2).2.symm
    · simp only [h2, Bool.false_eq_true, if_false]

/-- Response object: HTTP status, header list, body text. -/
structure Response where
  status : Nat
  headers : List (Str × Str)
  body : Str
deriving DecidableEq

/-- RequestInit: only the headers field matters to the wrapper. -/
structure RequestInit where
  headers : List (Str × Str)
deriving DecidableEq

/-- Look a key up in a plain-object header list (first match). -/
def lookupH : List (Str × Str) → Str → Option Str
  | [], _ => none
  | (k, v) :: t, q => if k = q then some v else lookupH t q

/-- JavaScript object-property assignment: overwrite in place when the key
exists, append otherwise. -/
def setProp (o : List (Str × Str)) (k v : Str) : List (Str × Str) :=
  if o.any (fun p => decide (p.fst = k)) then
    o.map (fun p => if p.fst = k then (k, v) else p)
  else o ++ [(k, v)]

/-- JavaScript object spread `\x7b ...o, k1: v1, ... \x7d`: the updates are
applied left to right on top of `o`, later keys winning. -/
def objSpread (o upd : List (Str × Str)) : List (Str × Str) :=
  upd.foldl (fun acc kv => setProp acc kv.fst kv.snd) o

/-- The five headers injected by the wrapper for authenticated requests
(setup.ts lines 148-155). -/
def authHeaders (token : Str) : List (Str × Str) :=
  [ (ls "Authorization", ls "Bearer " ++ token),
    (ls "OData-MaxVersion", ls "4.0"),
    (ls "OData-Version", ls "4.0"),
    (ls "Accept", ls "application/json"),
    (ls "Content-Type", ls "application/json; charset=utf-8") ]

/-- Header mutation performed by the wrapper when auth is added:
`init.headers = \x7b ...init.headers, Authorization: ..., ... \x7d`. -/
def buildAuthInit (init : Option RequestInit) (token : Str) : RequestInit :=
  ⟨objSpread (match init with | some i => i.headers | none => []) (authHeaders token)⟩

/-- Synthetic 401 returned when auth is required but no token is available. -/
def resp401 : Response :=
  ⟨401,
   [(ls "Content-Type", ls "application/json"), (ls "WWW-Authenticate", ls "Bearer")],
   ls "\x7b\"error\": \"Authentication required\"\x7d"⟩

/-- Synthetic 500 returned from the catch block of the wrapper. -/
def resp500 : Response :=
  ⟨500, [(ls "Content-Type", ls "application/json")], ls "\x7b\"error\": \"Request failed\"\x7d"⟩

/-- Deterministic mock fallback response for unit tests. -/
def mockResp200 : Response :=
  ⟨200,
   [(ls "Content-Type", ls "application/json"), (ls "OData-Version", ls "4.0")],
   ls "\x7b\"value\": []\x7d"⟩

/-- Input union accepted by the wrapper: string, URL object, Request object.
Each carries the URL string the wrapper extracts from it. -/
inductive FetchInput where
  | str (s : Str)
  | url (u : Str)
  | request (r : Str)
deriving DecidableEq

/-- URL extraction of setup.ts lines 96-98. -/
def extractUrl : FetchInput → Str
  | .str s => s
  | .url u => u
  | .request r => r

/-- JavaScript truthiness of the `string | null` token. -/
def tokenTruthy : Option Str → Bool
  | none => false
  | some t => !t.isEmpty

/-- Embedding of `createSecureFetch` (setup.ts lines 91-185).  The returned
function is the installed fetch wrapper.  `origFetch` is the captured
original fetch; its result is returned directly in the forwarding branch
(`return originalFetch(fullUrl, init)` inside `try` does not await, so a
rejection of the original fetch is NOT caught by the wrapper's catch block
and reaches the caller; synchronous throws inside the try block become the
synthetic 500). -/
def createSecureFetch (dataverseUrl : Str) (token : Option Str)
    (origFetch : Str → Option RequestInit → Except Str Response) :
    FetchInput → Option RequestInit → Except Str Response :=
  fun input init =>
    let url := extractUrl input
    if !validateUrl url then .ok resp500
    else
      let fu := classifyUrl dataverseUrl url
      if !validateUrl fu.fst then .ok resp500
      else if fu.snd && !tokenTruthy token then .ok resp401
      else
        let init2 := if fu.snd then some (buildAuthInit init (token.getD [])) else init
        if tokenTruthy token && !jsStartsWith (token.getD []) (ls "mock-") then
          origFetch fu.fst init2
        else .ok mockResp200

/-- Concrete dataverse base URL used in the concrete-instance theorems
(the same one the repository's tests use). -/
def baseC : Str := ls "https://test.crm.dynamics.com"

/-- Concrete non-mock token for concrete-instance theorems. -/
def realTok : Str := ls "real-token-abcdefghij"

/-- Original fetch that resolves with the mock 200 response. -/
def nullFetch : Str → Option RequestInit → Except Str Response :=
  fun _ _ => .ok mockResp200

/-- Original fetch that echoes the forwarded URL and headers back in the
response, used to observe what the wrapper forwards. -/
def echoFetch : Str → Option RequestInit → Except Str Response :=
  fun u i => .ok ⟨200, (match i with | some x => x.headers | none => []), u⟩

/-- Original fetch whose promise rejects (network failure). -/
def failFetch : Str → Option RequestInit → Except Str Response :=
  fun _ _ => .error (ls "network failure")

deriving instance DecidableEq for Except

theorem lookupH_append (a b : List (Str × Str)) (q : Str) :
    lookupH (a ++ b) q =
      match lookupH a q with
      | some v => some v
      | none => lookupH b q := by
  induction a with
  | nil => simp [lookupH]
  | cons p t ih =>
    obtain ⟨k, v⟩ := p
    by_cases h : k = q
    · simp [lookupH, h]
    · simp [lookupH, h, ih]

theorem lookupH_none_of_any_false (o : List (Str × Str)) (k : Str)
    (h : o.any (fun p => decide (p.fst = k)) = false) : lookupH o k = none := by
  induction o with
  | nil => rfl
  | cons p t ih =>
    obtain ⟨k1, v1⟩ := p
    simp only [List.any_cons, Bool.or_eq_false_iff, decide_eq_false_iff_not] at h
    simp [lookupH, h.1, ih h.2]

theorem lookupH_map_overwrite (o : List (Str × Str)) (k v : Str)
    (h : o.any (fun p => decide (p.fst = k)) = true) :
    lookupH (o.map (fun p => if p.fst = k then (k, v) else p)) k = some v := by
  induction o with
  | nil => simp at h
  | cons p t ih =>
    obtain ⟨k1, v1⟩ := p
    simp only [List.map_cons]
    by_cases hk : k1 = k
    · subst hk
      rw [if_pos rfl]
      simp [lookupH]
    · rw [if_neg hk]
      simp only [lookupH]
      rw [if_neg hk]
      apply ih
      simp only [List.any_cons, Bool.or_eq_true, decide_eq_true_eq] at h
      rcases h with h | h
      · exact absurd h hk
      · exact h

theorem lookupH_map_other (o : List (Str × Str)) (k v q : Str) (hq : q ≠ k) :
    lookupH (o.map (fun p => if p.fst = k then (k, v) else p)) q = lookupH o q := by
  induction o with
  | nil => rfl
  | cons p t ih =>
    obtain ⟨k1, v1⟩ := p
    simp only [List.map_cons]
    by_cases hk : k1 = k
    · subst hk
      rw [if_pos rfl]
      simp only [lookupH]
      rw [if_neg (Ne.symm hq), if_neg (Ne.symm hq)]
      exact ih
    · rw [if_neg hk]
      simp only [lookupH]
      by_cases hq1 : k1 = q
      · rw [if_pos hq1, if_pos hq1]
      · rw [if_neg hq1, if_neg hq1]
        exact ih

theorem lookupH_setProp_same (o : List (Str × Str)) (k v : Str) :
    lookupH (setProp o k v) k = some v := by
  unfold setProp
  by_cases h : o.any (fun p => decide (p.fst = k)) = true
  · simp only [h, if_true]
    exact lookupH_map_overwrite o k v h
  · simp only [h, Bool.false_eq_true, if_false]
    rw [lookupH_append]
    rw [lookupH_none_of_any_false o k (Bool.eq_false_iff.mpr h)]
    simp [lookupH]

theorem lookupH_setProp_other (o : List (Str × Str)) (k v q : Str) (hq : q ≠ k) :
    lookupH (setProp o k v) q = lookupH o q := by
  unfold setProp
  by_cases h : o.any (fun p => decide (p.fst = k)) = true
  · simp only [h, if_true]
    exact lookupH_map_other o k v q hq
  · simp only [h, Bool.false_eq_true, if_false]
    rw [lookupH_append]
    cases hfound : lookupH o q with
    | some v1 => rfl
    | none =>
      simp only [lookupH]
      rw [if_neg (Ne.symm hq)]

theorem classifyUrl_fst_of_snd_false (b url : Str)
    (h : (classifyUrl b url).snd = false) : (classifyUrl b url).fst = url := by
  unfold classifyUrl at *
  by_cases h1 : jsStartsWith url (ls "/api/data") = true
  · simp [h1] at h
  · simp only [h1, Bool.false_eq_true, if_false] at *
    by_cases h2 : (jsIncludes url b && jsIncludes url (ls "/api/data")) = true
    · simp [h2] at h
    · simp only [h2, Bool.false_eq_true, if_false] at *

theorem secureFetch_invalid (b : Str) (token : Option Str)
    (F : Str → Option RequestInit → Except Str Response) (url : Str)
    (init : Option RequestInit) (h : validateUrl url = false) :
    createSecureFetch b token F (.str url) init = .ok resp500 := by
  unfold createSecureFetch
  simp [extractUrl, h]

theorem secureFetch_invalid_final (b : Str) (token : Option Str)
    (F : Str → Option RequestInit → Except Str Response) (url : Str)
    (init : Option RequestInit) (h1 : validateUrl url = true)
    (h2 : validateUrl (classifyUrl b url).fst = false) :
    createSecureFetch b token F (.str url) init = .ok resp500 := by
  unfold createSecureFetch
  simp [extractUrl, h1, h2]

theorem secureFetch_401 (b : Str) (token : Option Str)
    (F : Str → Option RequestInit → Except Str Response) (url : Str)
    (init : Option RequestInit) (h1 : validateUrl url = true)
    (h2 : validateUrl (classifyUrl b url).fst = true)
    (h3 : (classifyUrl b url).snd = true)
    (h4 : tokenTruthy token = false) :
    createSecureFetch b token F (.str url) init = .ok resp401 := by
  unfold createSecureFetch
  simp [extractUrl, h1, h2, h3, h4]

theorem secureFetch_forward (b : Str) (tok : Str)
    (F : Str → Option RequestInit → Except Str Response) (url : Str)
    (init : Option RequestInit) (h1 : validateUrl url = true)
    (h2 : validateUrl (classifyUrl b url).fst = true)
    (h3 : (classifyUrl b url).snd = true)
    (h4 : tok.isEmpty = false)
    (h5 : jsStartsWith tok (ls "mock-") = false) :
    createSecureFetch b (some tok) F (.str url) init
      = F (classifyUrl b url).fst (some (buildAuthInit init tok)) := by
  unfold createSecureFetch
  simp [extractUrl, h1, h2, h3, tokenTruthy, h4, h5]

theorem secureFetch_forward_noauth (b : Str) (tok : Str)
    (F : Str → Option RequestInit → Except Str Response) (url : Str)
    (init : Option RequestInit) (h1 : validateUrl url = true)
    (h2 : validateUrl (classifyUrl b url).fst = true)
    (h3 : (classifyUrl b url).snd = false)
    (h4 : tok.isEmpty = false)
    (h5 : jsStartsWith tok (ls "mock-") = false) :
    createSecureFetch b (some tok) F (.str url) init = F url init := by
  unfold createSecureFetch
  simp [extractUrl, h1, h2, h3, tokenTruthy, h4, h5,
    classifyUrl_fst_of_snd_false b url h3]

/-- Claim C1 (code bug): a URL matching the protected path prefix but
lacking the leading slash is NOT treated like its slashed form.  It fails
`validateUrl` (a scheme-less relative reference makes `new URL` throw), so
the wrapper answers with the synthetic 500, while the slashed form is
classified as targeted and succeeds; the repository's own tests expect the
slash-less form to be rerouted and to return 200. -/
theorem claim_C1_no_slash_divergence :
    validateUrl (ls "api/data/v9.1/accounts?$top=1") = false
    ∧ createSecureFetch baseC (some (ls "mock-token-123")) nullFetch
        (.str (ls "api/data/v9.1/accounts?$top=1")) none = .ok resp500
    ∧ createSecureFetch baseC (some (ls "mock-token-123")) nullFetch
        (.str (ls "/api/data/v9.1/accounts?$top=1")) none = .ok mockResp200
    ∧ resp500.status = 500 ∧ mockResp200.status = 200 :=
  ⟨by decide, by decide, by decide, rfl, rfl⟩

/-- Statement of C2's targeting rule taken from the claim's words, for
comparison with the code: targeted iff, after normalizing an optional
leading slash, the URL begins with "/api/data", or the URL is absolute and
contains both the configured base domain and that prefix. -/
def claimTargeted (base url : Str) : Bool :=
  jsStartsWith (if jsStartsWith url (ls "/") then url else ls "/" ++ url) (ls "/api/data")
  || (urlParses url && jsIncludes url base && jsIncludes url (ls "/api/data"))

/-- Fully external URL that merely contains the path prefix. -/
def evilUrl : Str := ls "https://evil.example.com/api/data/v9.1/accounts"

/-- Claim C2 counterexample: an external-domain URL containing "/api/data"
is not targeted under the claim's rule, yet the wrapper attaches the
Authorization header to it and forwards it. -/
theorem claim_C2_counterexample :
    claimTargeted baseC evilUrl = false
    ∧ createSecureFetch baseC (some realTok) echoFetch (.str evilUrl) none
        = .ok ⟨200, (buildAuthInit none realTok).headers, evilUrl⟩
    ∧ lookupH (buildAuthInit none realTok).headers (ls "Authorization")
        = some (ls "Bearer " ++ realTok) :=
  ⟨by decide, by decide, by decide⟩

/-- Claim C2 amended: for every valid URL whose rewritten form also passes
the final validation, the wrapper attaches authentication headers iff the
URL contains the substring "/api/data" anywhere (so a no-leading-slash
relative URL never reaches this point, and an external domain containing
the prefix substring IS authenticated); only URLs starting with
"/api/data" are rewritten to base ++ url, all others are forwarded with
their URL unchanged. -/
theorem claim_C2_amended (url tok : Str) (init : Option RequestInit)
    (h1 : validateUrl url = true)
    (h2 : validateUrl (classifyUrl baseC url).fst = true)
    (h4 : tok.isEmpty = false)
    (h5 : jsStartsWith tok (ls "mock-") = false) :
    (jsIncludes url (ls "/api/data") = true →
      createSecureFetch baseC (some tok) echoFetch (.str url) init
        = .ok ⟨200, (buildAuthInit init tok).headers, (classifyUrl baseC url).fst⟩)
    ∧ (jsIncludes url (ls "/api/data") = false →
      createSecureFetch baseC (some tok) echoFetch (.str url) init
        = .ok ⟨200, (match init with | some i => i.headers | none => []), url⟩)
    ∧ (classifyUrl baseC url).snd = jsIncludes url (ls "/api/data")
    ∧ (jsStartsWith url (ls "/api/data") = true →
        (classifyUrl baseC url).fst = baseC ++ url)
    ∧ (jsStartsWith url (ls "/api/data") = false →
        (classifyUrl baseC url).fst = url) := by
  refine ⟨?_, ?_, classifyUrl_snd baseC url, ?_, ?_⟩
  · intro hin
    have h3 : (classifyUrl baseC url).snd = true := by
      rw [classifyUrl_snd]; exact hin
    rw [secureFetch_forward baseC tok echoFetch url init h1 h2 h3 h4 h5]
    rfl
  · intro hout
    have h3 : (classifyUrl baseC url).snd = false := by
      rw [classifyUrl_snd]; exact hout
    rw [secureFetch_forward_noauth baseC tok echoFetch url init h1 h2 h3 h4 h5]
    rfl
  · intro hs
    unfold classifyUrl
    simp [hs]
  · intro hs
    unfold classifyUrl
    simp only [hs, Bool.false_eq_true, if_false]
    split <;> rfl

/-- Witness for the amended C2 at a concrete targeted URL. -/
theorem claim_C2_amended_witness :
    validateUrl (ls "/api/data/v9.1/accounts?$top=1") = true
    ∧ validateUrl (classifyUrl baseC (ls "/api/data/v9.1/accounts?$top=1")).fst = true
    ∧ realTok.isEmpty = false
    ∧ jsStartsWith realTok (ls "mock-") = false
    ∧ createSecureFetch baseC (some realTok) echoFetch
        (.str (ls "/api/data/v9.1/accounts?$top=1")) none
        = .ok ⟨200, (buildAuthInit none realTok).headers,
               (classifyUrl baseC (ls "/api/data/v9.1/accounts?$top=1")).fst⟩ :=
  ⟨by decide, by decide, by decide, by decide,
   (claim_C2_amended (ls "/api/data/v9.1/accounts?$top=1") realTok none
      (by decide) (by decide) (by decide) (by decide)).1 (by decide)⟩

/-- Claim C3 counterexample: with a real (non-mock) token installed, a
request forwarded to the genuine underlying fetch whose promise rejects
makes the wrapper's promise reject as well — the caller does NOT receive a
Response object.  The `return originalFetch(fullUrl, init)` inside the try
block is not awaited, so its rejection bypasses the wrapper's catch. -/
theorem claim_C3_counterexample :
    createSecureFetch baseC (some realTok) failFetch
      (.str (ls "/api/data/v9.1/accounts")) none
      = .error (ls "network failure") := by decide

/-- Claim C3 amended: the installed wrapper always resolves to a Response
object — for every input shape and init — provided the captured original
fetch itself never rejects; validation failures and internal errors are
delivered as synthetic 500/401 responses, never as exceptions. -/
theorem claim_C3_amended (b : Str) (token : Option Str)
    (F : Str → Option RequestInit → Except Str Response)
    (input : FetchInput) (init : Option RequestInit)
    (hF : ∀ u i, ∃ r, F u i = .ok r) :
    ∃ resp, createSecureFetch b token F input init = .ok resp := by
  unfold createSecureFetch
  dsimp only
  split
  · exact ⟨resp500, rfl⟩
  · split
    · exact ⟨resp500, rfl⟩
    · split
      · exact ⟨resp401, rfl⟩
      · split
        · exact hF _ _
        · exact ⟨mockResp200, rfl⟩

/-- Witness for the amended C3 with a never-rejecting original fetch. -/
theorem claim_C3_amended_witness :
    (∀ u i, ∃ r, nullFetch u i = .ok r)
    ∧ ∃ resp, createSecureFetch baseC (some realTok) nullFetch
        (.str (ls "/api/data/v9.1/accounts")) none = .ok resp :=
  ⟨fun _ _ => ⟨mockResp200, rfl⟩,
   claim_C3_amended baseC (some realTok) nullFetch
     (.str (ls "/api/data/v9.1/accounts")) none (fun _ _ => ⟨mockResp200, rfl⟩)⟩

/-- Claim C5: a valid targeted request issued with no token available
resolves (does not throw) to the synthetic 401 response carrying a
WWW-Authenticate Bearer header and the JSON authentication-error body. -/
theorem claim_C5_synthetic_401 (url : Str) (init : Option RequestInit)
    (F : Str → Option RequestInit → Except Str Response)
    (h1 : validateUrl url = true)
    (h2 : validateUrl (classifyUrl baseC url).fst = true)
    (h3 : jsIncludes url (ls "/api/data") = true) :
    createSecureFetch baseC none F (.str url) init = .ok resp401
    ∧ resp401.status = 401
    ∧ lookupH resp401.headers (ls "WWW-Authenticate") = some (ls "Bearer")
    ∧ resp401.body = ls "\x7b\"error\": \"Authentication required\"\x7d" := by
  refine ⟨?_, rfl, by decide, rfl⟩
  exact secureFetch_401 baseC none F url init h1 h2
    (by rw [classifyUrl_snd]; exact h3) rfl

/-- Witness for C5 at a concrete targeted URL. -/
theorem claim_C5_witness :
    validateUrl (ls "/api/data/v9.1/accounts") = true
    ∧ validateUrl (classifyUrl baseC (ls "/api/data/v9.1/accounts")).fst = true
    ∧ jsIncludes (ls "/api/data/v9.1/accounts") (ls "/api/data") = true
    ∧ (createSecureFetch baseC none nullFetch
         (.str (ls "/api/data/v9.1/accounts")) none = .ok resp401
       ∧ resp401.status = 401
       ∧ lookupH resp401.headers (ls "WWW-Authenticate") = some (ls "Bearer")
       ∧ resp401.body = ls "\x7b\"error\": \"Authentication required\"\x7d") :=
  ⟨by decide, by decide, by decide,
   claim_C5_synthetic_401 (ls "/api/data/v9.1/accounts") none nullFetch
     (by decide) (by decide) (by decide)⟩

/-- Caller-supplied init carrying its own Authorization header, used to
exhibit the overwrite in the C10 witness. -/
def callerInit : RequestInit :=
  ⟨[(ls "Authorization", ls "Bearer caller-token"), (ls "X-Custom", ls "1")]⟩

/-- Claim C10: for every targeted request with a token available, the
wrapper forwards headers in which Authorization is exactly
"Bearer " ++ token — any caller-supplied Authorization entry is
overwritten because the injected headers are spread after the caller's —
and the OData version markers, Accept and Content-Type always carry the
library's fixed values. -/
theorem claim_C10_header_override (init : Option RequestInit) (tok url : Str)
    (h1 : validateUrl url = true)
    (h2 : validateUrl (classifyUrl baseC url).fst = true)
    (h3 : jsIncludes url (ls "/api/data") = true)
    (h4 : tok.isEmpty = false)
    (h5 : jsStartsWith tok (ls "mock-") = false) :
    createSecureFetch baseC (some tok) echoFetch (.str url) init
      = .ok ⟨200, (buildAuthInit init tok).headers, (classifyUrl baseC url).fst⟩
    ∧ lookupH (buildAuthInit init tok).headers (ls "Authorization")
        = some (ls "Bearer " ++ tok)
    ∧ lookupH (buildAuthInit init tok).headers (ls "OData-MaxVersion") = some (ls "4.0")
    ∧ lookupH (buildAuthInit init tok).headers (ls "OData-Version") = some (ls "4.0")
    ∧ lookupH (buildAuthInit init tok).headers (ls "Accept") = some (ls "application/json")
    ∧ lookupH (buildAuthInit init tok).headers (ls "Content-Type")
        = some (ls "application/json; charset=utf-8") := by
  have hforward :
      createSecureFetch baseC (some tok) echoFetch (.str url) init
        = .ok ⟨200, (buildAuthInit init tok).headers, (classifyUrl baseC url).fst⟩ := by
    rw [secureFetch_forward baseC tok echoFetch url init h1 h2
      (by rw [classifyUrl_snd]; exact h3) h4 h5]
    rfl
  refine ⟨hforward, ?_, ?_, ?_, ?_, ?_⟩ <;>
    simp only [buildAuthInit, objSpread, authHeaders, List.foldl] <;>
    first
    | rw [lookupH_setProp_other _ _ _ _ (by decide),
          lookupH_setProp_other _ _ _ _ (by decide),
          lookupH_setProp_other _ _ _ _ (by decide),
          lookupH_setProp_other _ _ _ _ (by decide),
          lookupH_setProp_same]
    | rw [lookupH_setProp_other _ _ _ _ (by decide),
          lookupH_setProp_other _ _ _ _ (by decide),
          lookupH_setProp_other _ _ _ _ (by decide),
          lookupH_setProp_same]
    | rw [lookupH_setProp_other _ _ _ _ (by decide),
          lookupH_setProp_other _ _ _ _ (by decide),
          lookupH_setProp_same]
    | rw [lookupH_setProp_other _ _ _ _ (by decide),
          lookupH_setProp_same]
    | rw [lookupH_setProp_same]

/-- Witness for C10: concrete targeted request whose caller init already
holds an Authorization header; the forwarded value is the injected one. -/
theorem claim_C10_witness :
    validateUrl (ls "/api/data/v9.1/accounts") = true
    ∧ validateUrl (classifyUrl baseC (ls "/api/data/v9.1/accounts")).fst = true
    ∧ jsIncludes (ls "/api/data/v9.1/accounts") (ls "/api/data") = true
    ∧ realTok.isEmpty = false
    ∧ jsStartsWith realTok (ls "mock-") = false
    ∧ lookupH (buildAuthInit (some callerInit) realTok).headers (ls "Authorization")
        = some (ls "Bearer " ++ realTok) :=
  ⟨by decide, by decide, by decide, by decide, by decide,
   (claim_C10_header_override (some callerInit) realTok (ls "/api/data/v9.1/accounts")
      (by decide) (by decide) (by decide) (by decide) (by decide)).2.1⟩

/-- Module-level token cache slot of azure-auth.ts: token plus expiry. -/
structure TokenCacheEntry where
  token : Str
  expiry : Int
deriving DecidableEq

def isWordC (c : Char) : Bool := isLetterC c || isDigitC c || c = '_' || c = '-'

/-- Boolean test that `r` occurs at the end of `l`. -/
def sufB (r l : Str) : Bool := preB r.reverse l.reverse

/-- Match a hostname against one standard-domain pattern
`[\w-]+\.crm\d*<tail>` (azure-auth.ts lines 41-47): the hostname must end
with `tail`, preceded by optional digits, preceded by ".crm", preceded by a
nonempty run of word characters or hyphens. -/
def matchCrmTail (h tail : Str) : Bool :=
  sufB tail h &&
    (let pre := h.take (h.length - tail.length)
     let ds := (pre.reverse.takeWhile isDigitC).length
     let pre2 := pre.take (pre.length - ds)
     sufB (ls ".crm") pre2 &&
       (let w := pre2.take (pre2.length - 4)
        !w.isEmpty && w.all isWordC))

def matchesStandardDomain (h : Str) : Bool :=
  matchCrmTail h (ls ".dynamics.com")
  || matchCrmTail h (ls ".microsoftdynamics.com")
  || matchCrmTail h (ls ".microsoftdynamics.us")
  || matchCrmTail h (ls ".microsoftdynamics.de")
  || matchCrmTail h (ls ".microsoftdynamics.cn")

/-- Hostname of an https URL: the segment after "https://" up to the first
'/', '?', '#' or ':'.  Models `new URL(url).hostname` for the https URLs
this module accepts. -/
def extractHost (url : Str) : Str :=
  (url.drop 8).takeWhile (fun c => !(c = '/' || c = '?' || c = '#' || c = ':'))

/-- Suspicious-character denylist of azure-auth.ts line 63. -/
def hasSuspiciousChars (url : Str) : Bool :=
  url.any (fun c => c = '`' || c = '$' || c = '\x7b' || c = '\x7d' || c = '\\'
    || c = ';' || c = '|' || c = '&' || c = '<' || c = '>')

/-- Embedding of validateDataverseUrl (azure-auth.ts lines 25-72).  The
validator.isURL step with required https protocol is modelled as the
"https://" scheme requirement. -/
def validateDataverseUrl (url : Str) (allowedDomains : Option (List Str)) : Bool :=
  jsStartsWith url (ls "https://")
    && (matchesStandardDomain (extractHost url)
        || (match allowedDomains with
            | some doms => doms.any (fun d =>
                decide (extractHost url = d) || sufB (ls "." ++ d) (extractHost url))
            | none => false))
    && !hasSuspiciousChars url

/-- Fixed cache lifetime: tokens are cached for 55 minutes. -/
def cacheLifetimeMs : Int := 55 * 60 * 1000

/-- Outcome of the chained credential providers (getAzureAccessToken):
either a resolved token string or a thrown error. -/
abbrev ResolverResult := Except Str Str

/-- Fresh-acquisition path of getAzureToken (azure-auth.ts lines 146-168
inside its try/catch): a resolver error or an implausible token shape is
caught and becomes a null result with the cache unchanged; a plausible
token is cached with expiry now + 55 minutes. -/
def getFreshToken (cache : Option TokenCacheEntry) (now : Int)
    (resolver : ResolverResult) : Except Str (Option Str) × Option TokenCacheEntry :=
  match resolver with
  | .error _ => (.ok none, cache)
  | .ok tok =>
    if tok.isEmpty then (.ok none, cache)
    else if tok.length < 50 || tok.any (fun c => c = ' ') || tok.any (fun c => c = '\n') then
      (.ok none, cache)
    else (.ok (some tok), some ⟨tok, now + cacheLifetimeMs⟩)

/-- Embedding of getAzureToken (azure-auth.ts lines 119-180), explicit in
the module cache slot and the current time.  Returns the call outcome
(a thrown error for invalid input, otherwise token-or-null) together with
the new cache.  The azure-cli.ts variant imported by setup.ts has the
identical caching logic. -/
def getAzureToken (cache : Option TokenCacheEntry) (now : Int)
    (resolver : ResolverResult) (resourceUrl : Str) :
    Except Str (Option Str) × Option TokenCacheEntry :=
  if resourceUrl.isEmpty then
    (.error (ls "resourceUrl is required and must be a string"), cache)
  else if !validateDataverseUrl resourceUrl none then
    (.error (ls "Invalid dataverse URL"), cache)
  else
    match cache with
    | some c =>
      if now < c.expiry then (.ok (some c.token), some c)
      else getFreshToken (some c) now resolver
    | none => getFreshToken none now resolver

/-- Embedding of hasCachedToken (azure-auth.ts lines 197-199). -/
def hasCachedToken : Option TokenCacheEntry → Int → Bool
  | none, _ => false
  | some c, now => decide (now < c.expiry)

/-- Embedding of clearTokenCache (azure-auth.ts lines 186-192): the token
is overwritten and the slot nulled; observably the slot becomes empty. -/
def clearTokenCache (_cache : Option TokenCacheEntry) : Option TokenCacheEntry := none

theorem getAzureToken_fresh (url tok : Str) (now : Int)
    (hurl : validateDataverseUrl url none = true)
    (hne : tok.isEmpty = false)
    (hlen : 50 ≤ tok.length)
    (hsp : tok.any (fun c => c = ' ') = false)
    (hnl : tok.any (fun c => c = '\n') = false) :
    getAzureToken none now (.ok tok) url = (.ok (some tok), some ⟨tok, now + cacheLifetimeMs⟩) := by
  have hne' : url.isEmpty = false := by
    cases url with
    | nil => exact absurd hurl (by decide)
    | cons c t => rfl
  unfold getAzureToken getFreshToken
  simp [hne', hurl, hne, hsp, hnl, Nat.not_lt.mpr hlen]

/-- Claim C9: a fresh successful acquisition stores the token in the
single-slot cache with expiry = set time + the fixed 55-minute lifetime;
every read strictly before that expiry returns exactly the stored token
(without consulting the resolver), and once the expiry is reached the
cache reports the token absent. -/
theorem claim_C9_cache_roundtrip (url tok : Str) (now now2 : Int)
    (resolver2 : ResolverResult)
    (hurl : validateDataverseUrl url none = true)
    (hne : tok.isEmpty = false)
    (hlen : 50 ≤ tok.length)
    (hsp : tok.any (fun c => c = ' ') = false)
    (hnl : tok.any (fun c => c = '\n') = false) :
    getAzureToken none now (.ok tok) url = (.ok (some tok), some ⟨tok, now + cacheLifetimeMs⟩)
    ∧ (now2 < now + cacheLifetimeMs →
        (getAzureToken (some ⟨tok, now + cacheLifetimeMs⟩) now2 resolver2 url).1
            = .ok (some tok)
        ∧ hasCachedToken (some ⟨tok, now + cacheLifetimeMs⟩) now2 = true)
    ∧ (now + cacheLifetimeMs ≤ now2 →
        hasCachedToken (some ⟨tok, now + cacheLifetimeMs⟩) now2 = false) := by
  have hne' : url.isEmpty = false := by
    cases url with
    | nil => exact absurd hurl (by decide)
    | cons c t => rfl
  refine ⟨getAzureToken_fresh url tok now hurl hne hlen hsp hnl, ?_, ?_⟩
  · intro hlt
    constructor
    · unfold getAzureToken
      simp [hne', hurl, hlt]
    · simp [hasCachedToken, hlt]
  · intro hge
    simp only [hasCachedToken, decide_eq_false_iff_not]
    omega

/-- Concrete witness data for the cache claims: a valid dataverse URL and a
50-character plausible token. -/
def urlC : Str := ls "https://test.crm.dynamics.com"

def realTok50 : Str := ls "aaaaaaaaaaaaaaaaaaaaaaaaaaaaaaaaaaaaaaaaaaaaaaaaaa"

/-- Witness for C9 at concrete values (set at time 0, read at 100 and at
expiry). -/
theorem claim_C9_witness :
    validateDataverseUrl urlC none = true
    ∧ realTok50.isEmpty = false
    ∧ 50 ≤ realTok50.length
    ∧ realTok50.any (fun c => c = ' ') = false
    ∧ realTok50.any (fun c => c = '\n') = false
    ∧ getAzureToken none 0 (.ok realTok50) urlC
        = (.ok (some realTok50), some ⟨realTok50, 0 + cacheLifetimeMs⟩) :=
  ⟨by decide, by decide, by decide, by decide, by decide,
   (claim_C9_cache_roundtrip urlC realTok50 0 100 (.ok realTok50)
      (by decide) (by decide) (by decide) (by decide) (by decide)).1⟩

/-- Dynamic JavaScript value, as far as the setup validation inspects it. -/
inductive JsVal where
  | str (s : Str)
  | num (n : Int)
  | jbool (b : Bool)
  | undef
  | jnull
deriving DecidableEq

/-- The options object passed to setupDataverse, fields as dynamic values. -/
structure OptionsObj where
  dataverseUrl : JsVal
  tokenRefreshInterval : JsVal
  enableConsoleLogging : JsVal
  mockToken : JsVal
deriving DecidableEq

/-- Argument of setupDataverse: either not an object (null, undefined,
string, number, ...) or an options object. -/
inductive SetupArg where
  | notObject
  | opts (o : OptionsObj)
deriving DecidableEq

def checkMockToken (o : OptionsObj) : Except Str OptionsObj :=
  match o.mockToken with
  | .undef => .ok o
  | .str s =>
    if s.length < 10 then
      .error (ls "mockToken must be a string with at least 10 characters")
    else .ok o
  | _ => .error (ls "mockToken must be a string with at least 10 characters")

def checkLogging (o : OptionsObj) : Except Str OptionsObj :=
  match o.enableConsoleLogging with
  | .undef => checkMockToken o
  | .jbool _ => checkMockToken o
  | _ => .error (ls "enableConsoleLogging must be a boolean")

def checkInterval (o : OptionsObj) : Except Str OptionsObj :=
  match o.tokenRefreshInterval with
  | .undef => checkLogging o
  | .num n =>
    if n < 60000 ∨ 3600000 < n then
      .error (ls "tokenRefreshInterval must be a number between 60000ms (1 minute) and 3600000ms (1 hour)")
    else checkLogging o
  | _ =>
    .error (ls "tokenRefreshInterval must be a number between 60000ms (1 minute) and 3600000ms (1 hour)")

/-- Embedding of validateSetupOptions (setup.ts lines 17-47): each check
throws in order; on success the (unchanged) options object is available to
the caller. -/
def validateSetupOptions : SetupArg → Except Str OptionsObj
  | .notObject => .error (ls "setupDataverse() requires an options object")
  | .opts o =>
    match o.dataverseUrl with
    | .str s =>
      if s.isEmpty then .error (ls "dataverseUrl is required and must be a string")
      else checkInterval o
    | _ => .error (ls "dataverseUrl is required and must be a string")

/-- Closure state created by one successful setupDataverse call: the mock
token (if any), captured URL and interval, the closure's current token and
whether its refresh interval timer is armed. -/
structure Session where
  mockTok : Option Str
  dataverseUrl : Str
  refreshInterval : Int
  currentToken : Option Str
  timerActive : Bool
deriving DecidableEq

/-- Process-global state touched by setup/reset: the isSetup flag, the
azure-auth module token cache, the global URL marker, the dataverse URL
captured by the installed fetch override (none while the original fetch is
in place), and the closures of all setup calls made so far. -/
structure GState where
  isSetup : Bool
  azureCache : Option TokenCacheEntry
  globalUrl : Option Str
  fetchBase : Option Str
  sessions : List Session
deriving DecidableEq

def initialState : GState := ⟨false, none, none, none, []⟩

inductive SetupResult where
  | ok
  | warnedDuplicate
  | err (msg : Str)
deriving DecidableEq

/-- Defaults of setup.ts lines 205-210: dataverseUrl, tokenRefreshInterval
(default 50 minutes), mockToken. -/
def appliedOptions (o : OptionsObj) : Str × Int × Option Str :=
  ( (match o.dataverseUrl with | .str s => s | _ => []),
    (match o.tokenRefreshInterval with | .num n => n | _ => 50 * 60 * 1000),
    (match o.mockToken with | .str s => some s | _ => none) )

/-- One run of the refreshToken closure (setup.ts lines 218-242): a mock
token is installed directly; otherwise getAzureToken is consulted and a
thrown error is caught, nulling the current token. -/
def refreshTokenStep (mockTok : Option Str) (url : Str)
    (cache : Option TokenCacheEntry) (now : Int) (resolver : ResolverResult) :
    Option Str × Option TokenCacheEntry :=
  match mockTok with
  | some m => (some m, cache)
  | none =>
    match getAzureToken cache now resolver url with
    | (.ok t, c) => (t, c)
    | (.error _, c) => (none, c)

/-- Embedding of setupDataverse (setup.ts lines 192-290) as a state
transition: environment gate, option validation, duplicate-call guard,
initial token refresh, timer arming (only for real-token setups that
obtained a token), fetch override installation and global-marker
exposure. -/
def setupDataverse (st : GState) (arg : SetupArg) (prodEnv : Bool)
    (resolver : ResolverResult) (now : Int) : SetupResult × GState :=
  if prodEnv then
    (.err (ls "setupDataverse() failed: dataverse-utilities/testing should NOT be used in production environments"), st)
  else
    match validateSetupOptions arg with
    | .error m => (.err (ls "setupDataverse() failed: " ++ m), st)
    | .ok o =>
      if st.isSetup then (.warnedDuplicate, st)
      else
        let ao := appliedOptions o
        let rt := refreshTokenStep ao.2.2 ao.1 st.azureCache now resolver
        let timer := ao.2.2.isNone && tokenTruthy rt.1
        (.ok,
         { isSetup := true
           azureCache := rt.2
           globalUrl := some ao.1
           fetchBase := some ao.1
           sessions := st.sessions ++ [⟨ao.2.2, ao.1, ao.2.1, rt.1, timer⟩] })

/-- Embedding of resetDataverseSetup (setup.ts lines 296-307): clears the
setup flag, the module token cache and the global URL marker.  The fetch
override stays installed (the source comments that the original fetch is
not restored) and the closures of earlier setup calls — their current
token and their armed interval timer — are untouched, since reset has no
access to them. -/
def resetDataverseSetup (st : GState) : GState :=
  { st with isSetup := false
            azureCache := clearTokenCache st.azureCache
            globalUrl := none }

/-- Firing of the periodic refresh timer of session `k` (setup.ts lines
249-255): if that session's timer is still armed, run its refreshToken
closure against the current module cache. -/
def timerTick (st : GState) (k : Nat) (resolver : ResolverResult) (now : Int) : GState :=
  match st.sessions.get? k with
  | none => st
  | some s =>
    if s.timerActive then
      let rt := refreshTokenStep s.mockTok s.dataverseUrl st.azureCache now resolver
      { st with azureCache := rt.2
                sessions := st.sessions.set k { s with currentToken := rt.1 } }
    else st

/-- Setup argument with a real-token configuration (no mock token). -/
def optsReal : SetupArg := .opts ⟨.str urlC, .undef, .undef, .undef⟩

def c4Setup : SetupResult × GState :=
  setupDataverse initialState optsReal false (.ok realTok50) 0

def c4AfterReset : GState := resetDataverseSetup c4Setup.2

def c4AfterTick : GState := timerTick c4AfterReset 0 (.ok realTok50) 1000

/-- Claim C4 counterexample: after a real-token setup and a reset, the
session's refresh timer is still armed (reset cannot reach the closure's
timer handle), and its next firing repopulates the token cache — the cache
does not remain empty until a new setup call. -/
theorem claim_C4_counterexample :
    c4Setup.1 = .ok
    ∧ c4AfterReset.isSetup = false
    ∧ c4AfterReset.azureCache = none
    ∧ (c4AfterReset.sessions.get? 0).map Session.timerActive = some true
    ∧ c4AfterTick.azureCache = some ⟨realTok50, 1000 + cacheLifetimeMs⟩ := by
  decide

/-- Claim C4 amended: resetDataverseSetup synchronously clears the setup
flag, the token cache and the global URL marker, and is idempotent; but it
does not stop the refresh timer of any live setup session, so a timer
callback firing after the reset with a successful resolver repopulates the
token cache. -/
theorem claim_C4_amended (st : GState) (k : Nat) (s : Session) (tok : Str) (now : Int)
    (hs : st.sessions.get? k = some s)
    (hact : s.timerActive = true)
    (hmock : s.mockTok = none)
    (hurl : validateDataverseUrl s.dataverseUrl none = true)
    (hne : tok.isEmpty = false) (hlen : 50 ≤ tok.length)
    (hsp : tok.any (fun c => c = ' ') = false)
    (hnl : tok.any (fun c => c = '\n') = false) :
    (resetDataverseSetup st).isSetup = false
    ∧ (resetDataverseSetup st).azureCache = none
    ∧ (resetDataverseSetup st).globalUrl = none
    ∧ (resetDataverseSetup st).sessions = st.sessions
    ∧ resetDataverseSetup (resetDataverseSetup st) = resetDataverseSetup st
    ∧ (timerTick (resetDataverseSetup st) k (.ok tok) now).azureCache
        = some ⟨tok, now + cacheLifetimeMs⟩ := by
  refine ⟨rfl, rfl, rfl, rfl, rfl, ?_⟩
  unfold timerTick
  have hs' : (resetDataverseSetup st).sessions.get? k = some s := hs
  rw [hs']
  simp [hact, refreshTokenStep, hmock, resetDataverseSetup, clearTokenCache,
    getAzureToken_fresh s.dataverseUrl tok now hurl hne hlen hsp hnl]

/-- Witness for the amended C4: the concrete post-setup state. -/
theorem claim_C4_amended_witness :
    c4Setup.2.sessions.get? 0 = some ⟨none, urlC, 50 * 60 * 1000, some realTok50, true⟩
    ∧ validateDataverseUrl urlC none = true
    ∧ (timerTick (resetDataverseSetup c4Setup.2) 0 (.ok realTok50) 1000).azureCache
        = some ⟨realTok50, 1000 + cacheLifetimeMs⟩ :=
  ⟨by decide, by decide,
   (claim_C4_amended c4Setup.2 0 ⟨none, urlC, 50 * 60 * 1000, some realTok50, true⟩
      realTok50 1000 (by decide) rfl rfl (by decide) (by decide) (by decide)
      (by decide) (by decide)).2.2.2.2.2⟩

/-- Setup argument carrying a chosen tokenRefreshInterval value next to
otherwise-valid fields. -/
def mkIntervalArg (v : JsVal) : SetupArg :=
  .opts ⟨.str urlC, v, .undef, .str (ls "mock-token-123")⟩

/-- Claim C7: a supplied tokenRefreshInterval is accepted exactly when it
is a number n with 60000 ≤ n ≤ 3600000; any other supplied value (out of
range or not a number) makes setup fail. -/
theorem claim_C7_interval_bounds (v : JsVal) (st : GState)
    (resolver : ResolverResult) (now : Int)
    (hv : v ≠ .undef) (hst : st.isSetup = false) :
    (setupDataverse st (mkIntervalArg v) false resolver now).1 = .ok
      ↔ ∃ n : Int, v = .num n ∧ 60000 ≤ n ∧ n ≤ 3600000 := by
  cases v with
  | undef => exact absurd rfl hv
  | num n =>
    by_cases hb : n < 60000 ∨ 3600000 < n
    · constructor
      · intro h
        exfalso
        unfold setupDataverse validateSetupOptions checkInterval at h
        simp +decide [mkIntervalArg, hb] at h
      · rintro ⟨m, hm, h1, h2⟩
        injection hm with hm
        exfalso
        omega
    · constructor
      · intro _
        exact ⟨n, rfl, by omega, by omega⟩
      · intro _
        unfold setupDataverse validateSetupOptions checkInterval checkLogging checkMockToken
        simp +decide [mkIntervalArg, hb, hst]
  | str s =>
    constructor
    · intro h
      exfalso
      unfold setupDataverse validateSetupOptions checkInterval at h
      simp +decide [mkIntervalArg] at h
    · rintro ⟨m, hm, -, -⟩
      exact absurd hm (by simp)
  | jbool b =>
    constructor
    · intro h
      exfalso
      unfold setupDataverse validateSetupOptions checkInterval at h
      simp +decide [mkIntervalArg] at h
    · rintro ⟨m, hm, -, -⟩
      exact absurd hm (by simp)
  | jnull =>
    constructor
    · intro h
      exfalso
      unfold setupDataverse validateSetupOptions checkInterval at h
      simp +decide [mkIntervalArg] at h
    · rintro ⟨m, hm, -, -⟩
      exact absurd hm (by simp)

/-- Witness for C7: the boundary values 60000 and 3600000 are accepted,
59999 and 3600001 and the string value are rejected. -/
theorem claim_C7_witness :
    ((JsVal.num 60000) ≠ JsVal.undef)
    ∧ initialState.isSetup = false
    ∧ (setupDataverse initialState (mkIntervalArg (.num 60000)) false (.ok realTok50) 0).1 = .ok
    ∧ (setupDataverse initialState (mkIntervalArg (.num 3600000)) false (.ok realTok50) 0).1 = .ok
    ∧ (setupDataverse initialState (mkIntervalArg (.num 59999)) false (.ok realTok50) 0).1 ≠ .ok
    ∧ (setupDataverse initialState (mkIntervalArg (.num 3600001)) false (.ok realTok50) 0).1 ≠ .ok
    ∧ (setupDataverse initialState (mkIntervalArg (.str (ls "invalid"))) false (.ok realTok50) 0).1 ≠ .ok :=
  ⟨by decide, rfl,
   (claim_C7_interval_bounds (.num 60000) initialState (.ok realTok50) 0
      (by decide) rfl).mpr ⟨60000, rfl, by decide, by decide⟩,
   (claim_C7_interval_bounds (.num 3600000) initialState (.ok realTok50) 0
      (by decide) rfl).mpr ⟨3600000, rfl, by decide, by decide⟩,
   by decide, by decide, by decide⟩

/-- Claim C8: calling setupDataverse again while already set up, with any
configuration that passes validation in a non-production environment, does
not throw and returns the duplicate warning, leaving the global state —
including the installed fetch override and the existing sessions — exactly
unchanged. -/
theorem claim_C8_duplicate_setup (st : GState) (arg : SetupArg) (o : OptionsObj)
    (resolver : ResolverResult) (now : Int)
    (hsetup : st.isSetup = true)
    (hvalid : validateSetupOptions arg = .ok o) :
    setupDataverse st arg false resolver now = (.warnedDuplicate, st)
    ∧ (setupDataverse st arg false resolver now).2.sessions = st.sessions
    ∧ (setupDataverse st arg false resolver now).2.fetchBase = st.fetchBase := by
  have h : setupDataverse st arg false resolver now = (.warnedDuplicate, st) := by
    unfold setupDataverse
    simp [hvalid, hsetup]
  exact ⟨h, by rw [h], by rw [h]⟩

def mockObj : OptionsObj := ⟨.str urlC, .undef, .undef, .str (ls "mock-token-123")⟩

def mockArg : SetupArg := .opts mockObj

def c8First : GState := (setupDataverse initialState mockArg false (.ok realTok50) 0).2

/-- Witness for C8: a second identical call after a concrete first setup. -/
theorem claim_C8_witness :
    c8First.isSetup = true
    ∧ validateSetupOptions mockArg = .ok mockObj
    ∧ setupDataverse c8First mockArg false (.ok realTok50) 1 = (.warnedDuplicate, c8First) :=
  ⟨by decide, by decide,
   (claim_C8_duplicate_setup c8First mockArg mockObj (.ok realTok50) 1
      (by decide) (by decide)).1⟩

/-- Character class of the token-redaction regex `[A-Za-z0-9+/]` of
azure-auth.ts line 83 (the base64 alphabet without padding). -/
def isB64 (c : Char) : Bool := isLetterC c || isDigitC c || c = '+' || c = '/'

/-- JavaScript `\s` whitespace, restricted to its ASCII members (the inputs
of interest contain no exotic Unicode spaces). -/
def isWS (c : Char) : Bool :=
  c = ' ' || c = '\t' || c = '\n' || c = '\r' || c = '\x0b' || c = '\x0c'

/-- Character class `[A-Za-z0-9+/=._-]` of the Bearer and access_token
redaction regexes (azure-auth.ts lines 86-87). -/
def isTokC (c : Char) : Bool :=
  isB64 c || c = '=' || c = '.' || c = '_' || c = '-'

def redactMarker : Str := ls "[REDACTED-TOKEN]"

def bearerMarker : Str := ls "Bearer [REDACTED]"

def accessMarker : Str := ls "access_token=[REDACTED]"

/-- Fuel-driven scan for `message.replace(/[A-Za-z0-9+/]\x7b100,\x7d/g,
'[REDACTED-TOKEN]')`: each maximal run of 100 or more base64 characters is
replaced by the marker (the regex is greedy, so a match is always a
maximal run); shorter runs and other characters are copied. -/
def rrGo : Nat → Str → Str
  | 0, l => l
  | _ + 1, [] => []
  | n + 1, c :: cs =>
    if isB64 c then
      (if 100 ≤ ((c :: cs).takeWhile isB64).length then redactMarker
       else (c :: cs).takeWhile isB64) ++ rrGo n ((c :: cs).dropWhile isB64)
    else c :: rrGo n cs

def replaceLongRuns (l : Str) : Str := rrGo l.length l

/-- Case-insensitive literal match of `pat` (given lower case) at the head
of `l`, for the `/i` regex flag. -/
def matchCI (pat l : Str) : Bool := preB pat ((l.take pat.length).map lowCh)

/-- Try the regex `/Bearer\s+[A-Za-z0-9+/=._-]+/i` at the head of `l`;
on success return the remainder after the (greedy) match.  `\s` and the
token class are disjoint, so greedy matching is the pair of maximal
scans. -/
def matchBearerAt (l : Str) : Option Str :=
  if matchCI (ls "bearer") l then
    if ((l.drop 6).takeWhile isWS).isEmpty then none
    else
      if (((l.drop 6).dropWhile isWS).takeWhile isTokC).isEmpty then none
      else some (((l.drop 6).dropWhile isWS).dropWhile isTokC)
  else none

/-- Fuel-driven global replacement `message.replace(/Bearer\s+[...]+/gi,
'Bearer [REDACTED]')`: leftmost matches, scanning resumes after each
replacement. -/
def rbGo : Nat → Str → Str
  | 0, l => l
  | _ + 1, [] => []
  | n + 1, c :: cs =>
    match matchBearerAt (c :: cs) with
    | some rest => bearerMarker ++ rbGo n rest
    | none => c :: rbGo n cs

def replaceBearer (l : Str) : Str := rbGo l.length l

/-- Try the regex `/access_token[=:]\s*[A-Za-z0-9+/=._-]+/i` at the head
of `l`; on success return the remainder after the match. -/
def matchAccessAt (l : Str) : Option Str :=
  if matchCI (ls "access_token") l then
    match l.drop 12 with
    | [] => none
    | c :: l2 =>
      if c = '=' || c = ':' then
        if ((l2.dropWhile isWS).takeWhile isTokC).isEmpty then none
        else some ((l2.dropWhile isWS).dropWhile isTokC)
      else none
  else none

/-- Fuel-driven global replacement for the access_token pattern
(azure-auth.ts line 87). -/
def raGo : Nat → Str → Str
  | 0, l => l
  | _ + 1, [] => []
  | n + 1, c :: cs =>
    match matchAccessAt (c :: cs) with
    | some rest => accessMarker ++ raGo n rest
    | none => c :: raGo n cs

def replaceAccessToken (l : Str) : Str := raGo l.length l

/-- Embedding of sanitizeErrorMessage (azure-auth.ts lines 77-90) on the
extracted message text: the three regex replacements in source order.
(The guard returning "Unknown error" for an absent error value and the
Error-to-string coercion are upstream of this text transformation.) -/
def sanitizeErrorMessage (message : Str) : Str :=
  replaceAccessToken (replaceBearer (replaceLongRuns message))

theorem isPre_length (u l : Str) (h : isPre u l) : u.length ≤ l.length := by
  obtain ⟨t, rfl⟩ := h
  simp

theorem isSuf_length (u l : Str) (h : isSuf u l) : u.length ≤ l.length := by
  obtain ⟨s, rfl⟩ := h
  simp

theorem isSub_length (u l : Str) (h : isSub u l) : u.length ≤ l.length := by
  obtain ⟨s, t, rfl⟩ := h
  simp
  omega

theorem isSub_of_isPre (u l : Str) (h : isPre u l) : isSub u l := by
  obtain ⟨t, rfl⟩ := h
  exact ⟨[], t, rfl⟩

theorem isSub_of_isSuf (u l : Str) (h : isSuf u l) : isSub u l := by
  obtain ⟨s, rfl⟩ := h
  exact ⟨s, [], by simp⟩

theorem isSub_refl (l : Str) : isSub l l := ⟨[], [], by simp⟩

theorem isSub_cons (c : Char) (u l : Str) (h : isSub u l) : isSub u (c :: l) := by
  obtain ⟨s, t, rfl⟩ := h
  exact ⟨c :: s, t, rfl⟩

theorem isSuf_cons (c : Char) (u l : Str) (h : isSuf u l) : isSuf u (c :: l) := by
  obtain ⟨s, rfl⟩ := h
  exact ⟨c :: s, rfl⟩

theorem isSub_trans (u v l : Str) (h1 : isSub u v) (h2 : isSub v l) : isSub u l := by
  obtain ⟨s1, t1, rfl⟩ := h1
  obtain ⟨s2, t2, rfl⟩ := h2
  exact ⟨s2 ++ s1, t1 ++ t2, by simp⟩

theorem isSuf_trans (u v l : Str) (h1 : isSuf u v) (h2 : isSuf v l) : isSuf u l := by
  obtain ⟨s1, rfl⟩ := h1
  obtain ⟨s2, rfl⟩ := h2
  exact ⟨s2 ++ s1, by simp⟩

theorem isSuf_drop (k : Nat) (l : Str) : isSuf (l.drop k) l :=
  ⟨l.take k, (List.take_append_drop k l).symm⟩

theorem isSuf_dropWhile (p : Char → Bool) (l : Str) : isSuf (l.dropWhile p) l :=
  ⟨l.takeWhile p, (List.takeWhile_append_dropWhile p l).symm⟩

theorem isPre_append (u a b : Str) (h : isPre u (a ++ b)) :
    isPre u a ∨ ∃ u2, u = a ++ u2 ∧ isPre u2 b := by
  induction a generalizing u with
  | nil =>
    right
    exact ⟨u, by simp, by simpa using h⟩
  | cons c a' ih =>
    cases u with
    | nil => exact Or.inl ⟨c :: a', rfl⟩
    | cons d u' =>
      obtain ⟨t, ht⟩ := h
      rw [List.cons_append] at ht
      injection ht with h1 h2
      rcases ih u' ⟨t, h2⟩ with hp | ⟨u2, hu, hp2⟩
      · left
        obtain ⟨t', ht'⟩ := hp
        exact ⟨t', by rw [ht', h1]; simp⟩
      · right
        refine ⟨u2, ?_, hp2⟩
        rw [← h1, hu]
        simp

theorem isSub_drop_pre (u m : Str) (h : isSub u m) : ∃ k, isPre u (m.drop k) := by
  obtain ⟨s, t, rfl⟩ := h
  refine ⟨s.length, t, ?_⟩
  rw [List.append_assoc, List.drop_left]

theorem isSuf_eq_drop (u m : Str) (h : isSuf u m) : ∃ k, u = m.drop k := by
  obtain ⟨s, rfl⟩ := h
  exact ⟨s.length, (List.drop_left s u).symm⟩

theorem isSub_append (u a b : Str) (h : isSub u (a ++ b)) :
    isSub u a ∨ isSub u b
    ∨ ∃ u1 u2, u = u1 ++ u2 ∧ u1 ≠ [] ∧ u2 ≠ [] ∧ isSuf u1 a ∧ isPre u2 b := by
  induction a generalizing u with
  | nil =>
    right; left
    simpa using h
  | cons c a' ih =>
    obtain ⟨s, t, hst⟩ := h
    cases s with
    | cons d s' =>
      rw [List.cons_append] at hst
      injection hst with h1 h2
      rcases ih u ⟨s', t, h2⟩ with hA | hB | ⟨u1, u2, he, hn1, hn2, hsuf, hpre⟩
      · exact Or.inl (isSub_cons c u a' hA)
      · exact Or.inr (Or.inl hB)
      · exact Or.inr (Or.inr ⟨u1, u2, he, hn1, hn2, isSuf_cons c u1 a' hsuf, hpre⟩)
    | nil =>
      have hp : isPre u ((c :: a') ++ b) := ⟨t, by simpa using hst⟩
      rcases isPre_append u (c :: a') b hp with hA | ⟨u2, rfl, hp2⟩
      · exact Or.inl (isSub_of_isPre _ _ hA)
      · cases u2 with
        | nil => exact Or.inl (by simpa using isSub_refl (c :: a'))
        | cons e u2' =>
          exact Or.inr (Or.inr ⟨c :: a', e :: u2', rfl, by simp, by simp,
            ⟨[], rfl⟩, hp2⟩)

/-- Bound on base64 runs: every base64-only contiguous segment of `l` has
length at most `n`. -/
def runBnd (n : Nat) (l : Str) : Prop :=
  ∀ u, isSub u l → u.all isB64 = true → u.length ≤ n

theorem runBnd_mono (m n : Nat) (l : Str) (hmn : m ≤ n) (h : runBnd m l) :
    runBnd n l :=
  fun u hu ha => le_trans (h u hu ha) hmn

theorem runBnd_isSub (n : Nat) (v l : Str) (h : runBnd n l) (hv : isSub v l) :
    runBnd n v :=
  fun u hu ha => h u (isSub_trans u v l hu hv) ha

theorem b64_pre_bound (l u : Str) (h : isPre u l) (hb : u.all isB64 = true) :
    u.length ≤ (l.takeWhile isB64).length := by
  induction l generalizing u with
  | nil =>
    have := isPre_length u [] h
    simp at this
    simp [this]
  | cons c l' ih =>
    cases u with
    | nil => simp
    | cons d u' =>
      obtain ⟨t, ht⟩ := h
      rw [List.cons_append] at ht
      injection ht with h1 h2
      simp only [List.all_cons, Bool.and_eq_true] at hb
      subst h1
      rw [List.takeWhile_cons, hb.1]
      simpa using ih u' ⟨t, h2⟩ hb.2

theorem runBnd_of_drops (m : Str) (B : Nat)
    (h : ∀ k, k < m.length → ((m.drop k).takeWhile isB64).length ≤ B) :
    runBnd B m := by
  intro u hu ha
  obtain ⟨k, hp⟩ := isSub_drop_pre u m hu
  have hb := b64_pre_bound (m.drop k) u hp ha
  by_cases hk : k < m.length
  · exact le_trans hb (h k hk)
  · rw [List.drop_eq_nil_of_le (Nat.le_of_not_lt hk)] at hb
    simp only [List.takeWhile_nil, List.length_nil, Nat.le_zero] at hb
    omega

theorem suffix_b64_nil (m : Str)
    (h : ∀ k, k < m.length → ((m.drop k).all isB64 = true → m.drop k = [])) :
    ∀ u, isSuf u m → u.all isB64 = true → u = [] := by
  intro u hs ha
  obtain ⟨k, rfl⟩ := isSuf_eq_drop u m hs
  by_cases hk : k < m.length
  · exact h k hk ha
  · exact List.drop_eq_nil_of_le (Nat.le_of_not_lt hk)

theorem redactMarker_bound : runBnd 8 redactMarker :=
  runBnd_of_drops redactMarker 8 (by decide)

theorem bearerMarker_bound : runBnd 8 bearerMarker :=
  runBnd_of_drops bearerMarker 8 (by decide)

theorem accessMarker_bound : runBnd 8 accessMarker :=
  runBnd_of_drops accessMarker 8 (by decide)

theorem redactMarker_suf_nil :
    ∀ u, isSuf u redactMarker → u.all isB64 = true → u = [] :=
  suffix_b64_nil redactMarker (by decide)

theorem bearerMarker_suf_nil :
    ∀ u, isSuf u bearerMarker → u.all isB64 = true → u = [] :=
  suffix_b64_nil bearerMarker (by decide)

theorem accessMarker_suf_nil :
    ∀ u, isSuf u accessMarker → u.all isB64 = true → u = [] :=
  suffix_b64_nil accessMarker (by decide)

theorem dropWhile_head_false (p : Char → Bool) (l : Str) (d : Char) (ds : Str)
    (h : l.dropWhile p = d :: ds) : p d = false := by
  induction l with
  | nil => simp [List.dropWhile] at h
  | cons c cs ih =>
    rw [List.dropWhile_cons] at h
    by_cases hc : p c = true
    · rw [if_pos hc] at h
      exact ih h
    · rw [if_neg hc] at h
      injection h with h1 _
      rw [← h1]
      exact Bool.eq_false_iff.mpr hc

theorem isEmpty_false_len (l : Str) (h : l.isEmpty = false) : 1 ≤ l.length := by
  cases l with
  | nil => simp at h
  | cons c cs => simp

theorem length_takeWhile_dropWhile (p : Char → Bool) (l : Str) :
    (l.takeWhile p).length + (l.dropWhile p).length = l.length := by
  have := congrArg List.length (List.takeWhile_append_dropWhile p l)
  rw [List.length_append] at this
  exact this

theorem preB_length (r l : Str) (h : preB r l = true) : r.length ≤ l.length :=
  isPre_length r l ((preB_iff r l).mp h)

theorem matchCI_length (pat l : Str) (h : matchCI pat l = true) :
    pat.length ≤ l.length := by
  have := preB_length pat ((l.take pat.length).map lowCh) h
  simp only [List.length_map, List.length_take] at this
  omega

theorem matchBearerAt_some (l rest : Str) (h : matchBearerAt l = some rest) :
    rest.length + 8 ≤ l.length ∧ isSuf rest l := by
  unfold matchBearerAt at h
  by_cases hm : matchCI (ls "bearer") l = true
  · rw [if_pos hm] at h
    by_cases hw : ((l.drop 6).takeWhile isWS).isEmpty = true
    · rw [if_pos hw] at h
      exact absurd h (by simp)
    · rw [if_neg hw] at h
      by_cases htk : (((l.drop 6).dropWhile isWS).takeWhile isTokC).isEmpty = true
      · rw [if_pos htk] at h
        exact absurd h (by simp)
      · rw [if_neg htk] at h
        injection h with h1
        constructor
        · have h6 : (ls "bearer").length ≤ l.length := matchCI_length (ls "bearer") l hm
          have e1 := length_takeWhile_dropWhile isWS (l.drop 6)
          have e2 := length_takeWhile_dropWhile isTokC ((l.drop 6).dropWhile isWS)
          have w1 := isEmpty_false_len _ (Bool.eq_false_iff.mpr hw)
          have w2 := isEmpty_false_len _ (Bool.eq_false_iff.mpr htk)
          have hd : (l.drop 6).length = l.length - 6 := List.length_drop 6 l
          have h6' : (6 : Nat) ≤ l.length := by
            simpa using h6
          rw [← h1]
          omega
        · rw [← h1]
          exact isSuf_trans _ _ _
            (isSuf_trans _ _ _ (isSuf_dropWhile isTokC _) (isSuf_dropWhile isWS _))
            (isSuf_drop 6 l)
  · rw [if_neg hm] at h
    exact absurd h (by simp)

theorem matchAccessAt_some (l rest : Str) (h : matchAccessAt l = some rest) :
    rest.length + 14 ≤ l.length ∧ isSuf rest l := by
  unfold matchAccessAt at h
  by_cases hm : matchCI (ls "access_token") l = true
  · rw [if_pos hm] at h
    cases hdrop : l.drop 12 with
    | nil =>
      rw [hdrop] at h
      dsimp only at h
      exact absurd h (by simp)
    | cons c l2 =>
      rw [hdrop] at h
      dsimp only at h
      by_cases hc : (c = '=' || c = ':') = true
      · rw [if_pos hc] at h
        by_cases htk : ((l2.dropWhile isWS).takeWhile isTokC).isEmpty = true
        · rw [if_pos htk] at h
          exact absurd h (by simp)
        · rw [if_neg htk] at h
          injection h with h1
          have hl2 : l2 = l.drop 13 := by
            have := congrArg (List.drop 1) hdrop
            rw [List.drop_drop] at this
            simpa using this.symm
          constructor
          · have h12 : (ls "access_token").length ≤ l.length :=
              matchCI_length (ls "access_token") l hm
            have h12' : (12 : Nat) ≤ l.length := by simpa using h12
            have hlen2 : l2.length + 13 ≤ l.length := by
              have := congrArg List.length hdrop
              rw [List.length_drop] at this
              simp at this
              omega
            have e1 := length_takeWhile_dropWhile isWS l2
            have e2 := length_takeWhile_dropWhile isTokC (l2.dropWhile isWS)
            have w2 := isEmpty_false_len _ (Bool.eq_false_iff.mpr htk)
            rw [← h1]
            omega
          · rw [← h1, hl2]
            exact isSuf_trans _ _ _
              (isSuf_trans _ _ _ (isSuf_dropWhile isTokC _) (isSuf_dropWhile isWS _))
              (isSuf_drop 13 l)
      · rw [if_neg hc] at h
        exact absurd h (by simp)
  · rw [if_neg hm] at h
    exact absurd h (by simp)

theorem isSub_nil (u : Str) (h : isSub u []) : u = [] := by
  have := isSub_length u [] h
  simp at this
  exact this

theorem isPre_nil (u : Str) (h : isPre u []) : u = [] := by
  have := isPre_length u [] h
  simp at this
  exact this

theorem isSuf_singleton (u : Str) (c : Char) (h : isSuf u [c]) :
    u = [] ∨ u = [c] := by
  obtain ⟨s, hs⟩ := h
  cases s with
  | nil => right; simpa using hs.symm
  | cons a s' =>
    left
    rw [List.cons_append] at hs
    injection hs with _ h2
    exact (List.append_eq_nil.mp h2.symm).2

theorem isPre_cons_inv (e : Char) (u' : Str) (c : Char) (l : Str)
    (h : isPre (e :: u') (c :: l)) : e = c ∧ isPre u' l := by
  obtain ⟨t, ht⟩ := h
  rw [List.cons_append] at ht
  injection ht with h1 h2
  exact ⟨h1.symm, ⟨t, h2⟩⟩

theorem takeWhile_isPre (p : Char → Bool) (l : Str) : isPre (l.takeWhile p) l :=
  ⟨l.dropWhile p, (List.takeWhile_append_dropWhile p l).symm⟩

theorem takeWhile_all (p : Char → Bool) (l : Str) :
    (l.takeWhile p).all p = true := by
  induction l with
  | nil => rfl
  | cons c cs ih =>
    rw [List.takeWhile_cons]
    by_cases hc : p c = true
    · rw [if_pos hc]
      simp [hc, ih]
    · rw [if_neg hc]
      rfl

theorem rrGo_nil (k : Nat) : rrGo k [] = [] := by
  cases k <;> rfl

theorem rbGo_nil (k : Nat) : rbGo k [] = [] := by
  cases k <;> rfl

theorem raGo_nil (k : Nat) : raGo k [] = [] := by
  cases k <;> rfl

theorem rrGo_eq_pos_big (n : Nat) (c : Char) (cs : Str) (hc : isB64 c = true)
    (hb : 100 ≤ ((c :: cs).takeWhile isB64).length) :
    rrGo (n + 1) (c :: cs)
      = redactMarker ++ rrGo n ((c :: cs).dropWhile isB64) := by
  simp only [rrGo]
  rw [if_pos hc, if_pos hb]

theorem rrGo_eq_pos_small (n : Nat) (c : Char) (cs : Str) (hc : isB64 c = true)
    (hb : ¬ 100 ≤ ((c :: cs).takeWhile isB64).length) :
    rrGo (n + 1) (c :: cs)
      = (c :: cs).takeWhile isB64 ++ rrGo n ((c :: cs).dropWhile isB64) := by
  simp only [rrGo]
  rw [if_pos hc, if_neg hb]

theorem rrGo_eq_neg (n : Nat) (c : Char) (cs : Str) (hc : isB64 c = false) :
    rrGo (n + 1) (c :: cs) = c :: rrGo n cs := by
  simp only [rrGo]
  rw [if_neg (by simp [hc])]

theorem rrGo_pre_nil (n : Nat) (rest : Str)
    (hhead : ∀ d ds, rest = d :: ds → isB64 d = false) :
    ∀ u2, isPre u2 (rrGo n rest) → u2.all isB64 = true → u2 = [] := by
  cases rest with
  | nil =>
    intro u2 hp _
    rw [rrGo_nil n] at hp
    exact isPre_nil u2 hp
  | cons d ds =>
    intro u2 hp ha
    have hd : isB64 d = false := hhead d ds rfl
    cases n with
    | zero =>
      cases u2 with
      | nil => rfl
      | cons e u2' =>
        exfalso
        have he := (isPre_cons_inv e u2' d ds hp).1
        simp only [List.all_cons, Bool.and_eq_true] at ha
        rw [he] at ha
        exact absurd ha.1 (by simp [hd])
    | succ n' =>
      rw [rrGo_eq_neg n' d ds hd] at hp
      cases u2 with
      | nil => rfl
      | cons e u2' =>
        exfalso
        have he := (isPre_cons_inv e u2' d (rrGo n' ds) hp).1
        simp only [List.all_cons, Bool.and_eq_true] at ha
        rw [he] at ha
        exact absurd ha.1 (by simp [hd])

theorem rrGo_bounds (fuel : Nat) : ∀ l : Str, l.length ≤ fuel →
    runBnd 99 (rrGo fuel l)
    ∧ (∀ u, isPre u (rrGo fuel l) → u.all isB64 = true →
        u.length ≤ (l.takeWhile isB64).length) := by
  induction fuel with
  | zero =>
    intro l hl
    have hnil : l = [] := by
      cases l with
      | nil => rfl
      | cons c cs => simp at hl
    subst hnil
    constructor
    · intro u hu ha
      have hu0 : u = [] := isSub_nil u hu
      simp [hu0]
    · intro u hu ha
      have hu0 : u = [] := isPre_nil u hu
      simp [hu0]
  | succ n ih =>
    intro l hl
    cases l with
    | nil =>
      constructor
      · intro u hu ha
        have hu0 : u = [] := isSub_nil u hu
        simp [hu0]
      · intro u hu ha
        have hu0 : u = [] := isPre_nil u hu
        simp [hu0]
    | cons c cs =>
      by_cases hc : isB64 c = true
      · have h1 := length_takeWhile_dropWhile isB64 (c :: cs)
        have h2 : 1 ≤ ((c :: cs).takeWhile isB64).length := by
          rw [List.takeWhile_cons, if_pos hc]
          simp
        have hrest_le : ((c :: cs).dropWhile isB64).length ≤ n := by
          simp only [List.length_cons] at h1 hl
          omega
        obtain ⟨IH1, IH2⟩ := ih ((c :: cs).dropWhile isB64) hrest_le
        have hheadrest : ∀ d ds, (c :: cs).dropWhile isB64 = d :: ds → isB64 d = false :=
          fun d ds hd => dropWhile_head_false isB64 (c :: cs) d ds hd
        have hprenil := rrGo_pre_nil n ((c :: cs).dropWhile isB64) hheadrest
        by_cases hb : 100 ≤ ((c :: cs).takeWhile isB64).length
        · rw [rrGo_eq_pos_big n c cs hc hb]
          constructor
          · intro u hu ha
            rcases isSub_append u redactMarker _ hu with hA | hB | ⟨u1, u2, he, hn1, hn2, hsuf, hpre⟩
            · exact le_trans (redactMarker_bound u hA ha) (by omega)
            · exact IH1 u hB ha
            · exfalso
              have ha1 : u1.all isB64 = true := by
                rw [he, List.all_append] at ha
                exact ((Bool.and_eq_true _ _).mp ha).1
              exact hn1 (redactMarker_suf_nil u1 hsuf ha1)
          · intro u hu ha
            rcases isPre_append u redactMarker _ hu with hA | ⟨u2, he, hp2⟩
            · have hz := b64_pre_bound redactMarker u hA ha
              have hz0 : ((redactMarker).takeWhile isB64).length = 0 := by decide
              rw [hz0] at hz
              omega
            · exfalso
              rw [he, List.all_append] at ha
              have : redactMarker.all isB64 = true := ((Bool.and_eq_true _ _).mp ha).1
              exact absurd this (by decide)
        · rw [rrGo_eq_pos_small n c cs hc hb]
          constructor
          · intro u hu ha
            rcases isSub_append u _ _ hu with hA | hB | ⟨u1, u2, he, hn1, hn2, hsuf, hpre⟩
            · have := isSub_length u _ hA
              omega
            · exact IH1 u hB ha
            · exfalso
              have ha2 : u2.all isB64 = true := by
                rw [he, List.all_append] at ha
                exact ((Bool.and_eq_true _ _).mp ha).2
              exact hn2 (hprenil u2 hpre ha2)
          · intro u hu ha
            rcases isPre_append u _ _ hu with hA | ⟨u2, he, hp2⟩
            · exact isPre_length u _ hA
            · have ha2 : u2.all isB64 = true := by
                rw [he, List.all_append] at ha
                exact ((Bool.and_eq_true _ _).mp ha).2
              have hu2 : u2 = [] := hprenil u2 hp2 ha2
              rw [he, hu2]
              simp
      · have hc' : isB64 c = false := Bool.eq_false_iff.mpr hc
        rw [rrGo_eq_neg n c cs hc']
        have hcs_le : cs.length ≤ n := by
          simp only [List.length_cons] at hl
          omega
        obtain ⟨IH1, IH2⟩ := ih cs hcs_le
        constructor
        · intro u hu ha
          rcases isSub_append u [c] (rrGo n cs) hu with hA | hB | ⟨u1, u2, he, hn1, hn2, hsuf, hpre⟩
          · have := isSub_length u [c] hA
            simp at this
            omega
          · exact IH1 u hB ha
          · exfalso
            rcases isSuf_singleton u1 c hsuf with h1 | h1
            · exact hn1 h1
            · have hcb : isB64 c = true := by
                rw [he, h1] at ha
                simp only [List.cons_append, List.nil_append, List.all_cons,
                  Bool.and_eq_true] at ha
                exact ha.1
              exact absurd hcb hc
        · intro u hu ha
          cases u with
          | nil => simp
          | cons e u' =>
            exfalso
            have he := (isPre_cons_inv e u' c (rrGo n cs) hu).1
            simp only [List.all_cons, Bool.and_eq_true] at ha
            rw [he] at ha
            exact absurd ha.1 hc

theorem replaceLongRuns_runBnd (l : Str) : runBnd 99 (replaceLongRuns l) :=
  (rrGo_bounds l.length l (le_refl _)).1

theorem rbGo_eq_some (n : Nat) (c : Char) (cs rest : Str)
    (h : matchBearerAt (c :: cs) = some rest) :
    rbGo (n + 1) (c :: cs) = bearerMarker ++ rbGo n rest := by
  simp only [rbGo]
  rw [h]

theorem rbGo_eq_none (n : Nat) (c : Char) (cs : Str)
    (h : matchBearerAt (c :: cs) = none) :
    rbGo (n + 1) (c :: cs) = c :: rbGo n cs := by
  simp only [rbGo]
  rw [h]

theorem rbGo_bounds (fuel : Nat) : ∀ (l : Str) (n : Nat), l.length ≤ fuel → 2 ≤ n →
    runBnd n l →
    runBnd (n + 6) (rbGo fuel l)
    ∧ (∀ u, isPre u (rbGo fuel l) → u.all isB64 = true →
        u.length ≤ (l.takeWhile isB64).length + 6) := by
  induction fuel with
  | zero =>
    intro l n hl h2n hrb
    have hnil : l = [] := by
      cases l with
      | nil => rfl
      | cons c cs => simp at hl
    subst hnil
    constructor
    · intro u hu ha
      have hu0 : u = [] := isSub_nil u hu
      simp [hu0]
    · intro u hu ha
      have hu0 : u = [] := isPre_nil u hu
      simp [hu0]
  | succ m ih =>
    intro l n hl h2n hrb
    cases l with
    | nil =>
      constructor
      · intro u hu ha
        have hu0 : u = [] := isSub_nil u hu
        simp [hu0]
      · intro u hu ha
        have hu0 : u = [] := isPre_nil u hu
        simp [hu0]
    | cons c cs =>
      cases hmb : matchBearerAt (c :: cs) with
      | some rest =>
        rw [rbGo_eq_some m c cs rest hmb]
        obtain ⟨hlen8, hsuf⟩ := matchBearerAt_some (c :: cs) rest hmb
        have hrest_le : rest.length ≤ m := by
          simp only [List.length_cons] at hl hlen8
          omega
        have hrb_rest : runBnd n rest := runBnd_isSub n rest (c :: cs) hrb
          (isSub_of_isSuf rest (c :: cs) hsuf)
        obtain ⟨IH1, IH2⟩ := ih rest n hrest_le h2n hrb_rest
        constructor
        · intro u hu ha
          rcases isSub_append u bearerMarker _ hu with hA | hB | ⟨u1, u2, he, hn1, hn2, hsuf1, hpre⟩
          · exact le_trans (bearerMarker_bound u hA ha) (by omega)
          · exact IH1 u hB ha
          · exfalso
            have ha1 : u1.all isB64 = true := by
              rw [he, List.all_append] at ha
              exact ((Bool.and_eq_true _ _).mp ha).1
            exact hn1 (bearerMarker_suf_nil u1 hsuf1 ha1)
        · intro u hu ha
          rcases isPre_append u bearerMarker _ hu with hA | ⟨u2, he, hp2⟩
          · have hz := b64_pre_bound bearerMarker u hA ha
            have hz6 : ((bearerMarker).takeWhile isB64).length = 6 := by decide
            rw [hz6] at hz
            omega
          · exfalso
            rw [he, List.all_append] at ha
            have : bearerMarker.all isB64 = true := ((Bool.and_eq_true _ _).mp ha).1
            exact absurd this (by decide)
      | none =>
        rw [rbGo_eq_none m c cs hmb]
        have hcs_le : cs.length ≤ m := by
          simp only [List.length_cons] at hl
          omega
        have hrb_cs : runBnd n cs := runBnd_isSub n cs (c :: cs) hrb
          (isSub_of_isSuf cs (c :: cs) ⟨[c], rfl⟩)
        obtain ⟨IH1, IH2⟩ := ih cs n hcs_le h2n hrb_cs
        constructor
        · intro u hu ha
          rcases isSub_append u [c] (rbGo m cs) hu with hA | hB | ⟨u1, u2, he, hn1, hn2, hsuf1, hpre⟩
          · have := isSub_length u [c] hA
            simp at this
            omega
          · exact IH1 u hB ha
          · rcases isSuf_singleton u1 c hsuf1 with h1 | h1
            · exact absurd h1 hn1
            · have hcb : isB64 c = true := by
                rw [he, h1] at ha
                simp only [List.cons_append, List.nil_append, List.all_cons,
                  Bool.and_eq_true] at ha
                exact ha.1
              have ha2 : u2.all isB64 = true := by
                rw [he, List.all_append] at ha
                exact ((Bool.and_eq_true _ _).mp ha).2
              have hu2 := IH2 u2 hpre ha2
              have htw : ((c :: cs).takeWhile isB64).length ≤ n := by
                refine hrb ((c :: cs).takeWhile isB64)
                  (isSub_of_isPre _ _ (takeWhile_isPre isB64 (c :: cs)))
                  (takeWhile_all isB64 (c :: cs))
              rw [List.takeWhile_cons, if_pos hcb] at htw
              have hulen : u.length = 1 + u2.length := by
                rw [he, h1]
                simp
                omega
              simp only [List.length_cons] at htw
              omega
        · intro u hu ha
          cases u with
          | nil => simp
          | cons e u' =>
            have hec := (isPre_cons_inv e u' c (rbGo m cs) hu).1
            have hp' := (isPre_cons_inv e u' c (rbGo m cs) hu).2
            simp only [List.all_cons, Bool.and_eq_true] at ha
            have hcb : isB64 c = true := by rw [← hec]; exact ha.1
            have := IH2 u' hp' ha.2
            rw [List.takeWhile_cons, if_pos hcb]
            simp only [List.length_cons]
            omega

theorem replaceBearer_runBnd (l : Str) (n : Nat) (h2 : 2 ≤ n) (h : runBnd n l) :
    runBnd (n + 6) (replaceBearer l) :=
  (rbGo_bounds l.length l n (le_refl _) h2 h).1

theorem raGo_eq_some (n : Nat) (c : Char) (cs rest : Str)
    (h : matchAccessAt (c :: cs) = some rest) :
    raGo (n + 1) (c :: cs) = accessMarker ++ raGo n rest := by
  simp only [raGo]
  rw [h]

theorem raGo_eq_none (n : Nat) (c : Char) (cs : Str)
    (h : matchAccessAt (c :: cs) = none) :
    raGo (n + 1) (c :: cs) = c :: raGo n cs := by
  simp only [raGo]
  rw [h]

theorem raGo_bounds (fuel : Nat) : ∀ (l : Str) (n : Nat), l.length ≤ fuel → 2 ≤ n →
    runBnd n l →
    runBnd (n + 6) (raGo fuel l)
    ∧ (∀ u, isPre u (raGo fuel l) → u.all isB64 = true →
        u.length ≤ (l.takeWhile isB64).length + 6) := by
  induction fuel with
  | zero =>
    intro l n hl h2n hrb
    have hnil : l = [] := by
      cases l with
      | nil => rfl
      | cons c cs => simp at hl
    subst hnil
    constructor
    · intro u hu ha
      have hu0 : u = [] := isSub_nil u hu
      simp [hu0]
    · intro u hu ha
      have hu0 : u = [] := isPre_nil u hu
      simp [hu0]
  | succ m ih =>
    intro l n hl h2n hrb
    cases l with
    | nil =>
      constructor
      · intro u hu ha
        have hu0 : u = [] := isSub_nil u hu
        simp [hu0]
      · intro u hu ha
        have hu0 : u = [] := isPre_nil u hu
        simp [hu0]
    | cons c cs =>
      cases hmb : matchAccessAt (c :: cs) with
      | some rest =>
        rw [raGo_eq_some m c cs rest hmb]
        obtain ⟨hlen14, hsuf⟩ := matchAccessAt_some (c :: cs) rest hmb
        have hrest_le : rest.length ≤ m := by
          simp only [List.length_cons] at hl hlen14
          omega
        have hrb_rest : runBnd n rest := runBnd_isSub n rest (c :: cs) hrb
          (isSub_of_isSuf rest (c :: cs) hsuf)
        obtain ⟨IH1, IH2⟩ := ih rest n hrest_le h2n hrb_rest
        constructor
        · intro u hu ha
          rcases isSub_append u accessMarker _ hu with hA | hB | ⟨u1, u2, he, hn1, hn2, hsuf1, hpre⟩
          · exact le_trans (accessMarker_bound u hA ha) (by omega)
          · exact IH1 u hB ha
          · exfalso
            have ha1 : u1.all isB64 = true := by
              rw [he, List.all_append] at ha
              exact ((Bool.and_eq_true _ _).mp ha).1
            exact hn1 (accessMarker_suf_nil u1 hsuf1 ha1)
        · intro u hu ha
          rcases isPre_append u accessMarker _ hu with hA | ⟨u2, he, hp2⟩
          · have hz := b64_pre_bound accessMarker u hA ha
            have hz6 : ((accessMarker).takeWhile isB64).length = 6 := by decide
            rw [hz6] at hz
            omega
          · exfalso
            rw [he, List.all_append] at ha
            have : accessMarker.all isB64 = true := ((Bool.and_eq_true _ _).mp ha).1
            exact absurd this (by decide)
      | none =>
        rw [raGo_eq_none m c cs hmb]
        have hcs_le : cs.length ≤ m := by
          simp only [List.length_cons] at hl
          omega
        have hrb_cs : runBnd n cs := runBnd_isSub n cs (c :: cs) hrb
          (isSub_of_isSuf cs (c :: cs) ⟨[c], rfl⟩)
        obtain ⟨IH1, IH2⟩ := ih cs n hcs_le h2n hrb_cs
        constructor
        · intro u hu ha
          rcases isSub_append u [c] (raGo m cs) hu with hA | hB | ⟨u1, u2, he, hn1, hn2, hsuf1, hpre⟩
          · have := isSub_length u [c] hA
            simp at this
            omega
          · exact IH1 u hB ha
          · rcases isSuf_singleton u1 c hsuf1 with h1 | h1
            · exact absurd h1 hn1
            · have hcb : isB64 c = true := by
                rw [he, h1] at ha
                simp only [List.cons_append, List.nil_append, List.all_cons,
                  Bool.and_eq_true] at ha
                exact ha.1
              have ha2 : u2.all isB64 = true := by
                rw [he, List.all_append] at ha
                exact ((Bool.and_eq_true _ _).mp ha).2
              have hu2 := IH2 u2 hpre ha2
              have htw : ((c :: cs).takeWhile isB64).length ≤ n := by
                refine hrb ((c :: cs).takeWhile isB64)
                  (isSub_of_isPre _ _ (takeWhile_isPre isB64 (c :: cs)))
                  (takeWhile_all isB64 (c :: cs))
              rw [List.takeWhile_cons, if_pos hcb] at htw
              have hulen : u.length = 1 + u2.length := by
                rw [he, h1]
                simp
                omega
              simp only [List.length_cons] at htw
              omega
        · intro u hu ha
          cases u with
          | nil => simp
          | cons e u' =>
            have hec := (isPre_cons_inv e u' c (raGo m cs) hu).1
            have hp' := (isPre_cons_inv e u' c (raGo m cs) hu).2
            simp only [List.all_cons, Bool.and_eq_true] at ha
            have hcb : isB64 c = true := by rw [← hec]; exact ha.1
            have := IH2 u' hp' ha.2
            rw [List.takeWhile_cons, if_pos hcb]
            simp only [List.length_cons]
            omega

theorem replaceAccessToken_runBnd (l : Str) (n : Nat) (h2 : 2 ≤ n) (h : runBnd n l) :
    runBnd (n + 6) (replaceAccessToken l) :=
  (raGo_bounds l.length l n (le_refl _) h2 h).1

/-- Claim C6 counterexample: the Bearer replacement redacts only the
matched occurrence, so a token value that also appears elsewhere in the
input survives in the sanitizer's output verbatim. -/
theorem claim_C6_counterexample :
    jsIncludes (ls "Bearer tok123 tok123") (ls "Bearer tok123") = true
    ∧ sanitizeErrorMessage (ls "Bearer tok123 tok123") = ls "Bearer [REDACTED] tok123"
    ∧ jsIncludes (sanitizeErrorMessage (ls "Bearer tok123 tok123")) (ls "tok123") = true :=
  ⟨by decide, by decide, by decide⟩

/-- Claim C6 amended: for every input string containing a 150-character
run of base64-alphabet characters ([A-Za-z0-9+/]), the sanitizer's output
does not contain that run verbatim (every maximal run of 100 or more such
characters is replaced by the fixed marker, and the later Bearer and
access_token replacements cannot recreate a run of 150: every base64 run
of the final output has length at most 111).  The Bearer pattern has its
matched occurrence replaced by a fixed marker, but a copy of the bare
token value occurring outside the matched pattern may survive. -/
theorem claim_C6_amended (msg r : Str)
    (hlen : r.length = 150)
    (hall : r.all isB64 = true)
    (hsub : jsIncludes msg r = true) :
    jsIncludes (sanitizeErrorMessage msg) r = false := by
  have s1 : runBnd 99 (replaceLongRuns msg) := replaceLongRuns_runBnd msg
  have s2 : runBnd 105 (replaceBearer (replaceLongRuns msg)) :=
    replaceBearer_runBnd (replaceLongRuns msg) 99 (by omega) s1
  have s3 : runBnd 111 (replaceAccessToken (replaceBearer (replaceLongRuns msg))) :=
    replaceAccessToken_runBnd (replaceBearer (replaceLongRuns msg)) 105 (by omega) s2
  by_contra hcon
  rw [Bool.not_eq_false] at hcon
  have := s3 r ((subB_iff r _).mp hcon) hall
  omega

/-- Concrete 150-character base64 run. -/
def runA150 : Str := ls "AAAAAAAAAAAAAAAAAAAAAAAAAAAAAAAAAAAAAAAAAAAAAAAAAAAAAAAAAAAAAAAAAAAAAAAAAAAAAAAAAAAAAAAAAAAAAAAAAAAAAAAAAAAAAAAAAAAAAAAAAAAAAAAAAAAAAAAAAAAAAAAAAAAAAA"

/-- Witness for the amended C6 at a concrete 150-character run. -/
theorem claim_C6_amended_witness :
    runA150.length = 150
    ∧ runA150.all isB64 = true
    ∧ jsIncludes runA150 runA150 = true
    ∧ jsIncludes (sanitizeErrorMessage runA150) runA150 = false :=
  ⟨by decide, by decide, by decide,
   claim_C6_amended runA150 runA150 (by decide) (by decide) (by decide)⟩
